import Mathlib

/-!
Formal model of the woki-brain booking engine.

The TypeScript domain services and the create-booking use case are
embedded shallowly:

* An instant (a JS `Date` restricted to one service date) is a `Nat`
  counting milliseconds since the local midnight of that date.  Every
  comparison performed by the source happens between instants of the
  single requested date, which the repository's date filters enforce
  before any comparison, so this representation preserves all order
  and arithmetic facts used by the code.
* Booking `start`/`end` ISO strings are split into the `YYYY-MM-DD`
  prefix (`startDate : String`, the part the source extracts with
  `split('T')[0]`) and the millisecond-of-day instant.
* `number` values that the source validates to be integers (party
  sizes, durations in minutes) are `Int`.
* Thrown exceptions become `Option`/`Except` `none`/`error` results.
* ES2019 `Array.prototype.sort` is a stable sort; with a comparator
  that is a total preorder its output is the unique stable-sorted
  permutation of the input, which `List.insertionSort` computes.
-/

namespace WokiBrain


/-! ## src/domain/services/time.ts -/

/-- `alignToGrid` (time.ts): keeps the hour, floors the minute
component of the hour to the previous multiple of 15 and zeroes the
seconds and milliseconds components. -/
def alignToGrid (t : Nat) : Nat :=
  3600000 * (t / 3600000) + 60000 * (15 * (t / 60000 % 60 / 15))

/-- `alignToNextGrid` (time.ts): keeps the hour, ceils the minute
component of the hour to the next multiple of 15 (a result of 60
rolls over into the next hour, as `setMinutes(60)` does) and zeroes
the seconds and milliseconds components.  `Math.ceil (mm / 15) * 15`
on a natural `mm` is `15 * ((mm + 14) / 15)` in integer arithmetic. -/
def alignToNextGrid (t : Nat) : Nat :=
  3600000 * (t / 3600000) + 60000 * (15 * ((t / 60000 % 60 + 14) / 15))

/-- `isValidDuration` (time.ts) with its default bounds, which every
call site uses: a multiple of 15 minutes between 30 and 180. -/
def isValidDuration (d : Int) : Bool :=
  decide (d ≥ 30) && decide (d ≤ 180) && decide (d % 15 = 0)

/-- `Math.floor((e - s) / (1000 * 60))`: the millisecond difference in
whole minutes; `Int.fdiv` is floor division, matching `Math.floor` of
the real quotient also when the difference is negative. -/
def durFloor (s e : Nat) : Int := Int.fdiv ((e : Int) - (s : Int)) 60000

/-! ## Data model (src/domain/interfaces.ts, entities) -/

inductive BookingStatus
  | confirmed
  | cancelled
  deriving DecidableEq, Repr

structure Booking where
  id : String
  restaurantId : String
  sectorId : String
  tableIds : List String
  partySize : Int
  /-- The `YYYY-MM-DD` prefix of the ISO `start` string. -/
  startDate : String
  start : Nat
  /-- The source's `end` field (`end` is a Lean keyword). -/
  stop : Nat
  durationMinutes : Int
  status : BookingStatus
  createdAt : String
  updatedAt : String
  deriving DecidableEq, Repr

structure Table where
  id : String
  sectorId : String
  name : String
  minSize : Int
  maxSize : Int
  createdAt : String
  updatedAt : String
  deriving DecidableEq, Repr

structure Sector where
  id : String
  restaurantId : String
  name : String
  createdAt : String
  updatedAt : String
  deriving DecidableEq, Repr

/-- A service window; the source's zero-padded `"HH:mm"` strings are
modelled as the corresponding millisecond-of-day instants (string
comparison of zero-padded `"HH:mm"` agrees with numeric order). -/
structure ServiceWindow where
  start : Nat
  stop : Nat
  deriving DecidableEq, Repr

structure Restaurant where
  id : String
  name : String
  timezone : String
  windows : Option (List ServiceWindow)
  createdAt : String
  updatedAt : String
  deriving DecidableEq, Repr

/-! ## src/domain/services/gap_discovery.ts -/

/-- A free half-open interval `[start, stop)`. -/
structure TimeGap where
  start : Nat
  /-- The source's `end` field. -/
  stop : Nat
  durationMinutes : Int
  deriving DecidableEq, Repr

structure GapDiscoveryInput where
  table : Table
  bookings : List Booking
  date : String
  durationMinutes : Int
  serviceWindows : Option (List ServiceWindow)
  timezone : String
  deriving Repr

/-- `filterTableBookings`: keep CONFIRMED bookings that reference the
table and whose ISO start date equals the requested date. -/
def filterTableBookings (bookings : List Booking) (tableId : String) (date : String) :
    List Booking :=
  bookings.filter fun b =>
    decide (b.status = .confirmed) && b.tableIds.contains tableId && decide (b.startDate = date)

/-- The `{start, end}` pair `normalizeAndSortBookings` produces. -/
structure NormBooking where
  start : Nat
  stop : Nat
  deriving DecidableEq, Repr

/-- The stable sort by start used in `normalizeAndSortBookings`. -/
def sortNormBookings (l : List NormBooking) : List NormBooking :=
  l.insertionSort fun a b => a.start ≤ b.start

/-- `normalizeAndSortBookings`: align each booking's start/end down to
the grid and sort ascending by start (stably). -/
def normalizeAndSortBookings (bookings : List Booking) : List NormBooking :=
  sortNormBookings (bookings.map fun b => ⟨alignToGrid b.start, alignToGrid b.stop⟩)

/-- `getDayStart`: `alignToGrid` of `T00:00:00` (the timezone argument
is unused by the source). -/
def getDayStart : Nat := alignToGrid 0

/-- `getDayEnd`: `alignToNextGrid` of `T23:59:59`. -/
def getDayEnd : Nat := alignToNextGrid 86399000

/-- `createGapAligned`: align both bounds down and derive the duration. -/
def createGapAligned (s e : Nat) : TimeGap :=
  ⟨alignToGrid s, alignToGrid e, durFloor (alignToGrid s) (alignToGrid e)⟩

/-- `filterByDuration`. -/
def filterByDuration (gaps : List TimeGap) (minDurationMinutes : Int) : List TimeGap :=
  gaps.filter fun g => decide (g.durationMinutes ≥ minDurationMinutes)

/-- `filterByServiceWindows`: keep gaps fully contained in at least one
window. -/
def filterByServiceWindows (gaps : List TimeGap) (ws : List ServiceWindow) : List TimeGap :=
  gaps.filter fun g => ws.any fun w => decide (g.start ≥ w.start) && decide (g.stop ≤ w.stop)

/-- The `if (serviceWindows && serviceWindows.length > 0)` guard that
both branches of `findGapsForTable` apply after the duration filter. -/
def applyServiceWindows (gaps : List TimeGap) : Option (List ServiceWindow) → List TimeGap
  | some ws => if ws.length > 0 then filterByServiceWindows gaps ws else gaps
  | none => gaps

/-- The loop emitting gaps between consecutive sorted bookings: a gap
is pushed only when `current.end <= next.start` (touching included;
the half-open gap is then empty and removed by the duration filter). -/
def gapsBetween : List NormBooking → List TimeGap
  | a :: b :: rest =>
      (if a.stop ≤ b.start then [createGapAligned a.stop b.start] else [])
        ++ gapsBetween (b :: rest)
  | _ => []

/-- `GapDiscoveryService.findGapsForTable`; `none` models the
`Invalid duration` throw (the source guard is
`if (!isValidDuration(...)) throw`, written here with the branches
swapped). -/
def findGapsForTable (input : GapDiscoveryInput) : Option (List TimeGap) :=
  if isValidDuration input.durationMinutes then
    match normalizeAndSortBookings
        (filterTableBookings input.bookings input.table.id input.date) with
    | [] =>
        some (applyServiceWindows
          (filterByDuration [createGapAligned getDayStart getDayEnd] input.durationMinutes)
          input.serviceWindows)
    | first :: restSorted =>
        some (applyServiceWindows
          (filterByDuration
            ((if first.start > getDayStart then [createGapAligned getDayStart first.start]
              else [])
              ++ gapsBetween (first :: restSorted)
              ++ (if ((first :: restSorted).getLast (List.cons_ne_nil _ _)).stop < getDayEnd then
                    [createGapAligned
                      ((first :: restSorted).getLast (List.cons_ne_nil _ _)).stop getDayEnd]
                  else []))
            input.durationMinutes)
          input.serviceWindows)
  else none

/-! ## src/domain/services/combo_intersection.ts -/

/-- The merged gap of two overlapping-or-touching gaps: keep the start,
extend the end to the larger one, recompute the duration. -/
def mergeGap (current next : TimeGap) : TimeGap :=
  let newEnd := if current.stop > next.stop then current.stop else next.stop
  ⟨current.start, newEnd, durFloor current.start newEnd⟩

/-- The fold inside `mergeOverlappingGaps` over the sorted list. -/
def mergeLoop : TimeGap → List TimeGap → List TimeGap
  | current, [] => [current]
  | current, next :: rest =>
      if current.stop ≥ next.start then mergeLoop (mergeGap current next) rest
      else current :: mergeLoop next rest

/-- The stable sort by start used in `mergeOverlappingGaps`. -/
def sortGapsByStart (gaps : List TimeGap) : List TimeGap :=
  gaps.insertionSort fun a b => a.start ≤ b.start

/-- `mergeOverlappingGaps`. -/
def mergeOverlappingGaps (gaps : List TimeGap) : List TimeGap :=
  match sortGapsByStart gaps with
  | [] => []
  | g :: rest => mergeLoop g rest

/-- The body of `intersectTwoGapSets`'s double loop: the overlap
`[max(start1, start2), min(end1, end2))` of one pair when non-empty. -/
def overlapOf (g1 g2 : TimeGap) : Option TimeGap :=
  let overlapStart := if g1.start > g2.start then g1.start else g2.start
  let overlapEnd := if g1.stop < g2.stop then g1.stop else g2.stop
  if overlapStart < overlapEnd then
    some ⟨overlapStart, overlapEnd, durFloor overlapStart overlapEnd⟩
  else none

/-- `intersectTwoGapSets`: all pairwise non-empty overlaps, merged. -/
def intersectTwoGapSets (gaps1 gaps2 : List TimeGap) : List TimeGap :=
  mergeOverlappingGaps <| gaps1.flatMap fun g1 => gaps2.filterMap fun g2 => overlapOf g1 g2

/-- `intersectGaps`: fold the pairwise intersection over the per-table
gap lists, then filter by the required duration.  A single list is
returned unfiltered, as in the source. -/
def intersectGaps (gapsPerTable : List (List TimeGap)) (minDurationMinutes : Int) :
    List TimeGap :=
  match gapsPerTable with
  | [] => []
  | [single] => single
  | first :: rest =>
      (rest.foldl intersectTwoGapSets first).filter fun g =>
        decide (g.durationMinutes ≥ minDurationMinutes)

/-- Step 1 of `findComboGaps`: `tables.map(table => findGapsForTable(...))`,
with a thrown error from any call propagating (`none`). -/
def gapsForTables (tables : List Table) (bookings : List Booking) (date : String)
    (durationMinutes : Int) (serviceWindows : Option (List ServiceWindow))
    (timezone : String) : Option (List (List TimeGap)) :=
  match tables with
  | [] => some []
  | t :: rest => do
      let g ← findGapsForTable ⟨t, bookings, date, durationMinutes, serviceWindows, timezone⟩
      let gs ← gapsForTables rest bookings date durationMinutes serviceWindows timezone
      pure (g :: gs)

/-- `findComboGaps`. -/
def findComboGaps (tables : List Table) (bookings : List Booking) (date : String)
    (durationMinutes : Int) (serviceWindows : Option (List ServiceWindow))
    (timezone : String) : Option (List TimeGap) := do
  let gapsPerTable ← gapsForTables tables bookings date durationMinutes serviceWindows timezone
  if gapsPerTable.any (·.isEmpty) then pure []
  else pure (intersectGaps gapsPerTable durationMinutes)

/-! ## src/domain/services/wokibrain.ts -/

inductive CandidateKind
  | single
  | combo
  deriving DecidableEq, Repr

structure Capacity where
  minSize : Int
  maxSize : Int
  deriving DecidableEq, Repr

/-- A selection candidate (the optional `score`/`rationale` fields are
never set or read by the embedded code and are omitted). -/
structure Candidate where
  kind : CandidateKind
  tableIds : List String
  gap : TimeGap
  capacity : Capacity
  waste : Int
  deriving DecidableEq, Repr

structure WokiBrainInput where
  candidates : List Candidate
  partySize : Int

structure WokiBrainResult where
  candidate : Option Candidate
  hasCapacity : Bool
  deriving DecidableEq, Repr

/-- `filterValidCandidates`: `minSize <= partySize <= maxSize`. -/
def filterValidCandidates (candidates : List Candidate) (partySize : Int) : List Candidate :=
  candidates.filter fun c =>
    decide (partySize ≥ c.capacity.minSize) && decide (partySize ≤ c.capacity.maxSize)

/-- The comparator of `selectBestCandidate` (wokibrain.ts 109-130):
single before combo, then fewer tables, then lower waste, then earlier
gap start. -/
def cmpCandidate (a b : Candidate) : Int :=
  if a.kind = .single ∧ b.kind = .combo then -1
  else if a.kind = .combo ∧ b.kind = .single then 1
  else if a.tableIds.length ≠ b.tableIds.length then
    (a.tableIds.length : Int) - (b.tableIds.length : Int)
  else if a.waste ≠ b.waste then a.waste - b.waste
  else (a.gap.start : Int) - (b.gap.start : Int)

/-- The total preorder induced by the comparator. -/
def candLE (a b : Candidate) : Prop := cmpCandidate a b ≤ 0

instance : DecidableRel candLE := fun a b => inferInstanceAs (Decidable (_ ≤ _))

/-- `[...candidates].sort(cmp)`: stable, so equal to the insertion
sort under the comparator's preorder. -/
def sortCandidates (l : List Candidate) : List Candidate := l.insertionSort candLE

/-- `selectBestCandidate` composed with the non-emptiness check of its
caller: `sorted[0]` of a non-empty list, `none` otherwise. -/
def selectBestCandidate (candidates : List Candidate) : Option Candidate :=
  (sortCandidates candidates).head?

/-- `WokiBrainService.selectBest`. -/
def selectBest (input : WokiBrainInput) : WokiBrainResult :=
  let valid := filterValidCandidates input.candidates input.partySize
  if valid.isEmpty then ⟨none, false⟩
  else ⟨selectBestCandidate valid, true⟩

/-! ## src/domain/services/candidate_builder.ts -/

/-- `CandidateBuilder.createSingleCandidate`. -/
def createSingleCandidate (table : Table) (gap : TimeGap) (partySize : Int) : Candidate :=
  ⟨.single, [table.id], gap, ⟨table.minSize, table.maxSize⟩, table.maxSize - partySize⟩

/-- `CandidateBuilder.createComboCandidate`: simple-sum capacity. -/
def createComboCandidate (tables : List Table) (gap : TimeGap) (partySize : Int) : Candidate :=
  let minSum := tables.foldl (fun sum t => sum + t.minSize) 0
  let maxSum := tables.foldl (fun sum t => sum + t.maxSize) 0
  ⟨.combo, tables.map (·.id), gap, ⟨minSum, maxSum⟩, maxSum - partySize⟩

/-! ## src/application/use_cases/discover_seats.ts -/

structure DiscoverSeatsInput where
  tables : List Table
  bookings : List Booking
  date : String
  partySize : Int
  durationMinutes : Int
  serviceWindows : Option (List ServiceWindow)
  timezone : String
  windowStart : Option Nat
  windowEnd : Option Nat
  limit : Nat
  deriving Repr

/-- API candidate shape (`score`/`rationale` are never set). -/
structure DiscoverCandidate where
  kind : CandidateKind
  tableIds : List String
  start : Nat
  stop : Nat
  deriving DecidableEq, Repr

structure DiscoverSeatsResponse where
  slotMinutes : Int
  durationMinutes : Int
  candidates : List DiscoverCandidate
  deriving DecidableEq, Repr

/-- `applyTimeWindow`: if a requested window is given, keep only
service windows overlapping it and clip them to it.  The source's
falsy checks on the optional `"HH:mm"` strings become `Option`
matches; its string comparisons agree with the numeric order of the
modelled instants. -/
def applyTimeWindow (serviceWindows : Option (List ServiceWindow))
    (windowStart windowEnd : Option Nat) : Option (List ServiceWindow) :=
  match serviceWindows with
  | none => none
  | some ws =>
      if windowStart = none ∧ windowEnd = none then some ws
      else
        some ((ws.filter fun w =>
            !(match windowStart with | some s => decide (w.stop ≤ s) | none => false) &&
            !(match windowEnd with | some e => decide (w.start ≥ e) | none => false)).map
          fun w =>
            let clippedStart :=
              match windowStart with
              | some s => if w.start < s then s else w.start
              | none => w.start
            let clippedEnd :=
              match windowEnd with
              | some e => if w.stop > e then e else w.stop
              | none => w.stop
            ⟨clippedStart, clippedEnd⟩)

/-- `findSingleTableCandidates`: per capacity-compatible table, one
single candidate per discovered gap, in table order (declared before
its lemmas; the source file order is preserved otherwise). -/
def findSingleTableCandidates (tables : List Table) (bookings : List Booking) (date : String)
    (partySize durationMinutes : Int) (serviceWindows : Option (List ServiceWindow))
    (timezone : String) (windowStart windowEnd : Option Nat) : Option (List Candidate) :=
  match tables with
  | [] => some []
  | t :: rest =>
      if partySize < t.minSize ∨ partySize > t.maxSize then
        findSingleTableCandidates rest bookings date partySize durationMinutes serviceWindows
          timezone windowStart windowEnd
      else do
        let gaps ← findGapsForTable ⟨t, bookings, date, durationMinutes,
          applyTimeWindow serviceWindows windowStart windowEnd, timezone⟩
        let restCands ← findSingleTableCandidates rest bookings date partySize durationMinutes
          serviceWindows timezone windowStart windowEnd
        pure (gaps.map (fun g => createSingleCandidate t g partySize) ++ restCands)

/-- `generateCombinations`: the index-contiguous windows of the given
size (the loop runs zero times when `size > tables.length`). -/
def generateCombinations (tables : List Table) (size : Nat) : List (List Table) :=
  if size ≤ tables.length then
    (List.range (tables.length - size + 1)).map fun i => (tables.drop i).take size
  else []

/-- The inner loop of `findComboCandidates` over the combinations of
one size: capacity pre-check, then one combo candidate per combo gap. -/
def comboCandidatesForCombos (combos : List (List Table)) (bookings : List Booking)
    (date : String) (partySize durationMinutes : Int)
    (filteredWindows : Option (List ServiceWindow)) (timezone : String) :
    Option (List Candidate) :=
  match combos with
  | [] => some []
  | combo :: rest =>
      let totalMinSize := combo.foldl (fun sum t => sum + t.minSize) 0
      let totalMaxSize := combo.foldl (fun sum t => sum + t.maxSize) 0
      if partySize < totalMinSize ∨ partySize > totalMaxSize then
        comboCandidatesForCombos rest bookings date partySize durationMinutes filteredWindows
          timezone
      else do
        let comboGaps ← findComboGaps combo bookings date durationMinutes filteredWindows timezone
        let restCands ← comboCandidatesForCombos rest bookings date partySize durationMinutes
          filteredWindows timezone
        pure (comboGaps.map (fun g => createComboCandidate combo g partySize) ++ restCands)

/-- The outer loop of `findComboCandidates` over combo sizes. -/
def comboCandidatesForSizes (tables : List Table) (bookings : List Booking) (date : String)
    (partySize durationMinutes : Int) (filteredWindows : Option (List ServiceWindow))
    (timezone : String) : List Nat → Option (List Candidate)
  | [] => some []
  | size :: moreSizes => do
      let cs ← comboCandidatesForCombos (generateCombinations tables size) bookings date
        partySize durationMinutes filteredWindows timezone
      let more ← comboCandidatesForSizes tables bookings date partySize durationMinutes
        filteredWindows timezone moreSizes
      pure (cs ++ more)

/-- `findComboCandidates`: combo sizes 2 .. tables.length. -/
def findComboCandidates (tables : List Table) (bookings : List Booking) (date : String)
    (partySize durationMinutes : Int) (serviceWindows : Option (List ServiceWindow))
    (timezone : String) (windowStart windowEnd : Option Nat) : Option (List Candidate) :=
  comboCandidatesForSizes tables bookings date partySize durationMinutes
    (applyTimeWindow serviceWindows windowStart windowEnd) timezone
    (List.range' 2 (tables.length - 1))

/-- `DiscoverSeatsUseCase.execute`; its `filterAndSortCandidates` is
the same filter and the same comparator as `WokiBrainService`, so the
shared definitions are reused. -/
def discoverExecute (input : DiscoverSeatsInput) : Option DiscoverSeatsResponse := do
  let singles ← findSingleTableCandidates input.tables input.bookings input.date input.partySize
    input.durationMinutes input.serviceWindows input.timezone input.windowStart input.windowEnd
  let combos ← findComboCandidates input.tables input.bookings input.date input.partySize
    input.durationMinutes input.serviceWindows input.timezone input.windowStart input.windowEnd
  let validCandidates := sortCandidates (filterValidCandidates (singles ++ combos) input.partySize)
  pure ⟨15, input.durationMinutes,
    (validCandidates.take input.limit).map fun c => ⟨c.kind, c.tableIds, c.gap.start, c.gap.stop⟩⟩

/-! ## src/application/use_cases/create_booking.ts -/

structure CreateBookingInput where
  restaurantId : String
  sectorId : String
  partySize : Int
  durationMinutes : Int
  date : String
  windowStart : Option Nat
  windowEnd : Option Nat
  idempotencyKey : String
  deriving DecidableEq, Repr

structure CreateBookingResponse where
  id : String
  restaurantId : String
  sectorId : String
  tableIds : List String
  partySize : Int
  startDate : String
  start : Nat
  stop : Nat
  durationMinutes : Int
  status : BookingStatus
  createdAt : String
  updatedAt : String
  deriving DecidableEq, Repr

/-- The errors `execute` can raise.  The last three model, in order:
the generic `Table not found` throw of `convertToDomainCandidates`,
the gap service's duration throw reached through discovery, and a
rejection of the booking repository's `save` promise (the "unexpected
failure" a collaborator may produce inside the `try` block). -/
inductive EngineError
  | invalidInput
  | notFound
  | noCapacity
  | conflict
  | tableMissing
  | durationThrown
  | saveFailed
  deriving DecidableEq, Repr

/-- Observable collaborator effects of one `execute` run. -/
inductive Event
  | idemGet (key : String)
  | catalogLookup
  | ledgerRead
  | lockAcquire (key : String) (ok : Bool)
  | lockRelease (key : String)
  | ledgerAppend
  | idemSet (key : String)
  deriving DecidableEq, Repr

/-- The mutable collaborators of the coordinator (in-memory
repositories, lock manager, idempotency store) plus the run's
environment: `now` is `new Date().toISOString()`, `freshId` the
generated booking id, and `saveOk` whether the ledger append
succeeds.  Lock TTL expiry is not modelled (no wall clock). -/
structure World where
  restaurants : List Restaurant
  sectors : List Sector
  tables : List Table
  ledger : List Booking
  idem : List (String × Booking)
  locks : List String
  now : String
  freshId : String
  saveOk : Bool
  deriving DecidableEq, Repr

/-- `RestaurantRepository.findById`. -/
def findRestaurantById (w : World) (id : String) : Option Restaurant :=
  w.restaurants.find? fun r => r.id == id

/-- `SectorRepository.findById`. -/
def findSectorById (w : World) (id : String) : Option Sector :=
  w.sectors.find? fun s => s.id == id

/-- `TableRepository.findBySectorId`. -/
def findTablesBySectorId (w : World) (sectorId : String) : List Table :=
  w.tables.filter fun t => t.sectorId == sectorId

/-- `BookingRepository.findByRestaurantAndDate`: filter by restaurant
and by the ISO start date prefix. -/
def findByRestaurantAndDate (w : World) (restaurantId date : String) : List Booking :=
  w.ledger.filter fun b => decide (b.restaurantId = restaurantId) && decide (b.startDate = date)

/-- `IdempotencyStore.get`. -/
def idemLookup (w : World) (key : String) : Option Booking :=
  (w.idem.find? fun p => p.1 == key).map (·.2)

/-- `validateInputs`: positive integer party size (integrality is
inherent in the `Int` model) and a valid duration. -/
def validateInputs (partySize durationMinutes : Int) : Bool :=
  decide (partySize > 0) && isValidDuration durationMinutes

/-- One step of `convertToDomainCandidates`: resolve the tables (the
`Table not found` throw becomes `none`), rebuild the gap and the
simple-sum capacity. -/
def convertOneCandidate (tables : List Table) (partySize : Int) (a : DiscoverCandidate) :
    Option Candidate := do
  let candidateTables ← a.tableIds.mapM fun id => tables.find? fun t => t.id == id
  let minSum := candidateTables.foldl (fun sum t => sum + t.minSize) 0
  let maxSum := candidateTables.foldl (fun sum t => sum + t.maxSize) 0
  pure ⟨a.kind, a.tableIds, ⟨a.start, a.stop, durFloor a.start a.stop⟩,
    ⟨minSum, maxSum⟩, maxSum - partySize⟩

/-- `convertToDomainCandidates`. -/
def convertToDomainCandidates (apiCandidates : List DiscoverCandidate) (tables : List Table)
    (partySize : Int) : Option (List Candidate) :=
  apiCandidates.mapM (convertOneCandidate tables partySize)

/-- The stable default `Array.prototype.sort()` on strings (ascending
lexicographic; Lean's `String` order compares the same way for the
identifiers in scope). -/
def sortTableIds (ids : List String) : List String :=
  ids.insertionSort fun a b => a ≤ b

/-- `generateLockKey`.  `tableIds.sort()` mutates the candidate's
array in place, so the sorted list is returned alongside the key and
`execute` rebinds the candidate's `tableIds` to it.  `toISOString` of
the normalized start is modelled by the decimal rendering of the
instant (both renderings are injective). -/
def generateLockKey (restaurantId sectorId : String) (tableIds : List String)
    (start : Nat) : String × List String :=
  let sortedIds := sortTableIds tableIds
  (restaurantId ++ "|" ++ sectorId ++ "|" ++ String.intercalate "+" sortedIds ++ "|"
    ++ toString start, sortedIds)

/-- `checkCollision`: some CONFIRMED booking sharing a table overlaps
the candidate's half-open interval. -/
def checkCollision (candidate : Candidate) (existingBookings : List Booking)
    (tableIds : List String) : Bool :=
  existingBookings.any fun b =>
    decide (b.status = .confirmed) &&
    b.tableIds.any (fun id => tableIds.contains id) &&
    (decide (candidate.gap.start < b.stop) && decide (candidate.gap.stop > b.start))

/-- `bookingToResponse`. -/
def bookingToResponse (b : Booking) : CreateBookingResponse :=
  ⟨b.id, b.restaurantId, b.sectorId, b.tableIds, b.partySize, b.startDate, b.start, b.stop,
   b.durationMinutes, b.status, b.createdAt, b.updatedAt⟩

/-- Steps 3-7 of `execute`: catalog resolution, ledger read, seat
discovery, WokiBrain selection and lock-key generation.  Read-only;
the returned candidate carries the tableIds already sorted by
`generateLockKey`'s in-place sort.  The second component is the
effect trace of this phase.  The source's `length === 0` emptiness
checks are written as list matches and the `!==` sector guard with its
branches swapped; the `!bestResult.hasCapacity || !bestResult.candidate`
guard is the match on the candidate (`selectBest` sets
`hasCapacity = false` exactly when the candidate is `none`). -/
def prepare (w : World) (input : CreateBookingInput) :
    Except EngineError (Candidate × String) × List Event :=
  match findRestaurantById w input.restaurantId with
  | none => (.error .notFound, [.catalogLookup])
  | some restaurant =>
    match findSectorById w input.sectorId with
    | none => (.error .notFound, [.catalogLookup, .catalogLookup])
    | some sector =>
      if sector.restaurantId = input.restaurantId then
        match findTablesBySectorId w input.sectorId with
        | [] => (.error .notFound, [.catalogLookup, .catalogLookup, .catalogLookup])
        | t0 :: trest =>
          match discoverExecute ⟨t0 :: trest,
              findByRestaurantAndDate w input.restaurantId input.date, input.date,
              input.partySize, input.durationMinutes, restaurant.windows,
              restaurant.timezone, input.windowStart, input.windowEnd, 10⟩ with
          | none =>
              (.error .durationThrown,
               [.catalogLookup, .catalogLookup, .catalogLookup, .ledgerRead])
          | some discoverResult =>
            match discoverResult.candidates with
            | [] =>
                (.error .noCapacity,
                 [.catalogLookup, .catalogLookup, .catalogLookup, .ledgerRead])
            | c0 :: crest =>
              match convertToDomainCandidates (c0 :: crest) (t0 :: trest)
                  input.partySize with
              | none =>
                  (.error .tableMissing,
                   [.catalogLookup, .catalogLookup, .catalogLookup, .ledgerRead])
              | some candidates =>
                match (selectBest ⟨candidates, input.partySize⟩).candidate with
                | none =>
                    (.error .noCapacity,
                     [.catalogLookup, .catalogLookup, .catalogLookup, .ledgerRead])
                | some selected =>
                    (.ok ({selected with
                        tableIds := (generateLockKey input.restaurantId input.sectorId
                          selected.tableIds selected.gap.start).2},
                      (generateLockKey input.restaurantId input.sectorId
                        selected.tableIds selected.gap.start).1),
                     [.catalogLookup, .catalogLookup, .catalogLookup, .ledgerRead])
      else (.error .notFound, [.catalogLookup, .catalogLookup])

/-- Step 10 of `execute`: the booking entity, built from the selected
candidate's whole gap, with the requested duration and CONFIRMED
status.  Its ISO `start`/`end` strings are the request date plus the
gap bounds. -/
def mkBooking (w : World) (input : CreateBookingInput) (selected : Candidate) : Booking :=
  ⟨w.freshId, input.restaurantId, input.sectorId, selected.tableIds, input.partySize,
   input.date, selected.gap.start, selected.gap.stop, input.durationMinutes,
   .confirmed, w.now, w.now⟩

/-- Steps 9-12 of `execute` (the body of the `try` block): re-read the
ledger, collision check, booking construction, save, idempotency
record. -/
def commitPhase (w : World) (input : CreateBookingInput) (selected : Candidate) :
    Except EngineError CreateBookingResponse × World × List Event :=
  if checkCollision selected (findByRestaurantAndDate w input.restaurantId input.date)
      selected.tableIds then
    (.error .conflict, w, [.ledgerRead])
  else if ¬ w.saveOk then (.error .saveFailed, w, [.ledgerRead])
  else
    (.ok (bookingToResponse (mkBooking w input selected)),
     {w with ledger := w.ledger ++ [mkBooking w input selected],
             idem := (input.idempotencyKey, mkBooking w input selected) :: w.idem},
     [.ledgerRead, .ledgerAppend, .idemSet input.idempotencyKey])

/-- `CreateBookingUseCase.execute`: validate, idempotency
short-circuit, prepare, lock acquire, `try` commit `finally` release.
Returns the result, the final collaborator state and the effect
trace. -/
def execute (w : World) (input : CreateBookingInput) :
    Except EngineError CreateBookingResponse × World × List Event :=
  if ¬ validateInputs input.partySize input.durationMinutes then
    (.error .invalidInput, w, [])
  else
    match idemLookup w input.idempotencyKey with
    | some existing => (.ok (bookingToResponse existing), w, [.idemGet input.idempotencyKey])
    | none =>
      match prepare w input with
      | (.error e, evs) => (.error e, w, .idemGet input.idempotencyKey :: evs)
      | (.ok (selected, lockKey), evs) =>
        let evs0 := .idemGet input.idempotencyKey :: evs
        if lockKey ∈ w.locks then
          (.error .conflict, w, evs0 ++ [.lockAcquire lockKey false])
        else
          let c := commitPhase {w with locks := lockKey :: w.locks} input selected
          (c.1, {c.2.1 with locks := c.2.1.locks.erase lockKey},
           evs0 ++ [.lockAcquire lockKey true] ++ c.2.2 ++ [.lockRelease lockKey])

/-- The candidate `execute` would select for this request (the result
of its read-only preparation phase), used to state properties of the
committed booking. -/
def selectedCandidateOf (w : World) (input : CreateBookingInput) : Option Candidate :=
  match prepare w input with
  | (.ok (selected, _), _) => some selected
  | _ => none

/-! ## Grid-alignment facts -/

/-- An instant lies on the 15-minute grid: its minute component is in
{0, 15, 30, 45} and its seconds and sub-second components are zero. -/
def gridAligned (t : Nat) : Prop :=
  t / 60000 % 60 ∈ ([0, 15, 30, 45] : List Nat) ∧ t / 1000 % 60 = 0 ∧ t % 1000 = 0

instance (t : Nat) : Decidable (gridAligned t) := by
  unfold gridAligned; infer_instance

theorem gridAligned_iff (t : Nat) : gridAligned t ↔ t % 900000 = 0 := by
  have h1 : t / 1000 / 60 = t / 60000 := by rw [Nat.div_div_eq_div_mul]
  have h2 : t / 60000 / 60 = t / 3600000 := by rw [Nat.div_div_eq_div_mul]
  simp only [gridAligned, List.mem_cons, List.not_mem_nil, or_false]
  omega

theorem alignToGrid_eq (t : Nat) : alignToGrid t = 900000 * (t / 900000) := by
  unfold alignToGrid; omega

theorem gridAligned_alignToGrid (t : Nat) : gridAligned (alignToGrid t) := by
  rw [gridAligned_iff, alignToGrid_eq]; omega

theorem gridAligned_alignToNextGrid (t : Nat) : gridAligned (alignToNextGrid t) := by
  rw [gridAligned_iff]; unfold alignToNextGrid; omega

theorem fdiv_nonpos_of_nonpos (a : Int) (h : a ≤ 0) : a.fdiv 60000 ≤ 0 := by
  rcases a with m | m
  · have hm : m = 0 := by simpa using le_antisymm h (Int.ofNat_nonneg m)
    subst hm; decide
  · exact le_of_lt (Int.negSucc_lt_zero _)

/-- A gap whose recorded duration reaches 30 minutes is non-empty. -/
theorem lt_of_durFloor_ge_30 (s e : Nat) (h : 30 ≤ durFloor s e) : s < e := by
  by_contra hc
  have h2 : (e : Int) - (s : Int) ≤ 0 := by omega
  have := fdiv_nonpos_of_nonpos _ h2
  unfold durFloor at h
  omega

/-! ## Selection-key machinery -/

/-- Rank of a candidate kind in the comparator: single before combo. -/
def kindIdx : CandidateKind → Int
  | .single => 0
  | .combo => 1

/-- The composite selection key: kind rank, resource count, waste, gap
start instant. -/
def selKey (c : Candidate) : Int × Int × Int × Int :=
  (kindIdx c.kind, (c.tableIds.length : Int), c.waste, (c.gap.start : Int))

/-- Lexicographic order on selection keys. -/
def keyLE (p q : Int × Int × Int × Int) : Prop :=
  p.1 < q.1 ∨ (p.1 = q.1 ∧ (p.2.1 < q.2.1 ∨ (p.2.1 = q.2.1 ∧
    (p.2.2.1 < q.2.2.1 ∨ (p.2.2.1 = q.2.2.1 ∧ p.2.2.2 ≤ q.2.2.2)))))

instance (p q : Int × Int × Int × Int) : Decidable (keyLE p q) := by
  unfold keyLE; infer_instance

theorem candLE_iff_keyLE (a b : Candidate) : candLE a b ↔ keyLE (selKey a) (selKey b) := by
  unfold candLE cmpCandidate keyLE selKey kindIdx
  cases ha : a.kind <;> cases hb : b.kind <;>
    simp only [ha, hb, reduceCtorEq, and_self, and_false, false_and, and_true, true_and,
      if_true, if_false, not_true, not_false_iff, ite_true, ite_false] <;>
    (try split_ifs) <;> omega

theorem keyLE_total (p q : Int × Int × Int × Int) : keyLE p q ∨ keyLE q p := by
  unfold keyLE; omega

theorem keyLE_trans (p q r : Int × Int × Int × Int) :
    keyLE p q → keyLE q r → keyLE p r := by
  unfold keyLE; omega

theorem keyLE_antisymm (p q : Int × Int × Int × Int) :
    keyLE p q → keyLE q p → p = q := by
  obtain ⟨p1, p2, p3, p4⟩ := p
  obtain ⟨q1, q2, q3, q4⟩ := q
  simp only [keyLE, Prod.mk.injEq]
  omega

instance : IsTotal Candidate candLE :=
  ⟨fun a b => by
    rw [candLE_iff_keyLE, candLE_iff_keyLE]
    exact keyLE_total _ _⟩

instance : IsTrans Candidate candLE :=
  ⟨fun a b c hab hbc => by
    rw [candLE_iff_keyLE] at hab hbc ⊢
    exact keyLE_trans _ _ _ hab hbc⟩

theorem candLE_refl (a : Candidate) : candLE a a := by
  rw [candLE_iff_keyLE]; unfold keyLE; omega

/-- `sorted[0]` of the candidate sort: it is a member and a minimum of
the input under the comparator's preorder. -/
theorem selectBestCandidate_spec (l : List Candidate) (h : l ≠ []) :
    ∃ c, selectBestCandidate l = some c ∧ c ∈ l ∧ ∀ d ∈ l, candLE c d := by
  unfold selectBestCandidate sortCandidates
  have hp := List.perm_insertionSort candLE l
  have hs := List.sorted_insertionSort candLE l
  cases hl : l.insertionSort candLE with
  | nil =>
      rw [hl] at hp
      exact absurd hp.symm.eq_nil h
  | cons c rest =>
      rw [hl] at hp hs
      refine ⟨c, rfl, hp.mem_iff.mp (List.mem_cons_self c rest), ?_⟩
      intro d hd
      rcases List.mem_cons.mp (hp.mem_iff.mpr hd) with rfl | hmem
      · exact candLE_refl _
      · exact List.rel_of_sorted_cons hs d hmem

/-! ## Gap-discovery structural facts -/

/-- Well-formedness of the gaps the services construct: the recorded
duration is the floor minute difference of the bounds and both bounds
are grid-aligned. -/
def gapWF (g : TimeGap) : Prop :=
  g.durationMinutes = durFloor g.start g.stop ∧ gridAligned g.start ∧ gridAligned g.stop

theorem gapWF_createGapAligned (s e : Nat) : gapWF (createGapAligned s e) :=
  ⟨rfl, gridAligned_alignToGrid s, gridAligned_alignToGrid e⟩

theorem gapsBetween_mem (l : List NormBooking) :
    ∀ g ∈ gapsBetween l, ∃ s e, g = createGapAligned s e := by
  induction l with
  | nil => intro g hg; simp [gapsBetween] at hg
  | cons a rest ih =>
      cases rest with
      | nil => intro g hg; simp [gapsBetween] at hg
      | cons b rest2 =>
          intro g hg
          rw [gapsBetween] at hg
          rcases List.mem_append.mp hg with hg | hg
          · by_cases hab : a.stop ≤ b.start
            · rw [if_pos hab] at hg
              exact ⟨_, _, List.mem_singleton.mp hg⟩
            · rw [if_neg hab] at hg
              simp at hg
          · exact ih g hg

theorem mem_filterByDuration (gaps : List TimeGap) (d : Int) (g : TimeGap) :
    g ∈ filterByDuration gaps d ↔ g ∈ gaps ∧ d ≤ g.durationMinutes := by
  simp [filterByDuration, List.mem_filter, ge_iff_le]

theorem mem_applyServiceWindows (gaps : List TimeGap) (sw : Option (List ServiceWindow))
    (g : TimeGap) (h : g ∈ applyServiceWindows gaps sw) : g ∈ gaps := by
  cases sw with
  | none => exact h
  | some ws =>
      rw [applyServiceWindows] at h
      split at h
      · exact (List.mem_filter.mp h).1
      · exact h

theorem isValidDuration_ge_30 (d : Int) (h : isValidDuration d = true) : 30 ≤ d := by
  unfold isValidDuration at h
  simp only [Bool.and_eq_true, decide_eq_true_eq] at h
  exact h.1.1

/-- Every gap `findGapsForTable` returns is well-formed and at least as
long as the (valid, hence ≥ 30 minute) required duration. -/
theorem findGapsForTable_mem (input : GapDiscoveryInput) (gaps : List TimeGap)
    (h : findGapsForTable input = some gaps) :
    30 ≤ input.durationMinutes ∧
      ∀ g ∈ gaps, gapWF g ∧ input.durationMinutes ≤ g.durationMinutes := by
  unfold findGapsForTable at h
  by_cases hv : isValidDuration input.durationMinutes = true
  case neg => rw [if_neg hv] at h; cases h
  rw [if_pos hv] at h
  refine ⟨isValidDuration_ge_30 _ hv, ?_⟩
  intro g hg
  cases hsort : normalizeAndSortBookings
      (filterTableBookings input.bookings input.table.id input.date) with
  | nil =>
      rw [hsort] at h
      injection h with h
      subst h
      obtain ⟨hmem, hdur⟩ := (mem_filterByDuration _ _ _).mp (mem_applyServiceWindows _ _ _ hg)
      refine ⟨?_, hdur⟩
      rw [List.mem_singleton.mp hmem]
      exact gapWF_createGapAligned _ _
  | cons first restSorted =>
      rw [hsort] at h
      injection h with h
      subst h
      obtain ⟨hmem, hdur⟩ := (mem_filterByDuration _ _ _).mp (mem_applyServiceWindows _ _ _ hg)
      refine ⟨?_, hdur⟩
      rcases List.mem_append.mp hmem with hmem | hmem
      · rcases List.mem_append.mp hmem with hmem | hmem
        · split at hmem
          · rw [List.mem_singleton.mp hmem]
            exact gapWF_createGapAligned _ _
          · cases hmem
        · obtain ⟨s, e, rfl⟩ := gapsBetween_mem _ g hmem
          exact gapWF_createGapAligned _ _
      · split at hmem
        · rw [List.mem_singleton.mp hmem]
          exact gapWF_createGapAligned _ _
        · cases hmem

theorem findGapsForTable_isValid (input : GapDiscoveryInput) (gaps : List TimeGap)
    (h : findGapsForTable input = some gaps) : isValidDuration input.durationMinutes = true := by
  unfold findGapsForTable at h
  by_cases hv : isValidDuration input.durationMinutes = true
  · exact hv
  · rw [if_neg hv] at h; cases h

/-- The gap service only throws for an invalid duration. -/
theorem findGapsForTable_total (input : GapDiscoveryInput)
    (hv : isValidDuration input.durationMinutes = true) :
    ∃ gaps, findGapsForTable input = some gaps := by
  unfold findGapsForTable
  rw [if_pos hv]
  split <;> exact ⟨_, rfl⟩

theorem gapsForTables_total (tables : List Table) (bookings : List Booking) (date : String)
    (d : Int) (sw : Option (List ServiceWindow)) (tz : String)
    (hv : isValidDuration d = true) :
    ∃ L, gapsForTables tables bookings date d sw tz = some L := by
  induction tables with
  | nil => exact ⟨[], rfl⟩
  | cons t rest ih =>
      obtain ⟨gs, hgs⟩ := findGapsForTable_total ⟨t, bookings, date, d, sw, tz⟩ hv
      obtain ⟨L, hL⟩ := ih
      refine ⟨gs :: L, ?_⟩
      rw [gapsForTables, hgs]
      simp [hL]

theorem gapsForTables_elim (tables : List Table) (bookings : List Booking) (date : String)
    (d : Int) (sw : Option (List ServiceWindow)) (tz : String) (L : List (List TimeGap))
    (h : gapsForTables tables bookings date d sw tz = some L) :
    (∀ t ∈ tables, ∃ gs ∈ L, findGapsForTable ⟨t, bookings, date, d, sw, tz⟩ = some gs) ∧
      (∀ gs ∈ L, ∃ t ∈ tables, findGapsForTable ⟨t, bookings, date, d, sw, tz⟩ = some gs) := by
  induction tables generalizing L with
  | nil =>
      injection h with h
      subst h
      exact ⟨fun t ht => absurd ht (List.not_mem_nil t), fun gs hgs => absurd hgs (List.not_mem_nil gs)⟩
  | cons t0 rest ih =>
      rw [gapsForTables] at h
      simp only [Option.bind_eq_bind, Option.bind_eq_some, Option.pure_def,
        Option.some.injEq] at h
      obtain ⟨g0, hg0, L0, hL0, hcons⟩ := h
      subst hcons
      obtain ⟨ih1, ih2⟩ := ih L0 hL0
      constructor
      · intro t ht
        rcases List.mem_cons.mp ht with rfl | ht
        · exact ⟨g0, List.mem_cons_self _ _, hg0⟩
        · obtain ⟨gs, hgs, hf⟩ := ih1 t ht
          exact ⟨gs, List.mem_cons_of_mem _ hgs, hf⟩
      · intro gs hgs
        rcases List.mem_cons.mp hgs with rfl | hgs
        · exact ⟨t0, List.mem_cons_self _ _, hg0⟩
        · obtain ⟨t, ht, hf⟩ := ih2 gs hgs
          exact ⟨t, List.mem_cons_of_mem _ ht, hf⟩

/-! ## Intersection structural facts -/

/-- Preservation of a property along the merge loop, given closure of
the property under merging two gaps. -/
theorem mergeLoop_pres (P : TimeGap → Prop)
    (hP : ∀ a b, P a → P b → P (mergeGap a b)) :
    ∀ (l : List TimeGap) (cur : TimeGap), P cur → (∀ x ∈ l, P x) →
      ∀ g ∈ mergeLoop cur l, P g := by
  intro l
  induction l with
  | nil =>
      intro cur hcur _ g hg
      rw [mergeLoop] at hg
      rw [List.mem_singleton.mp hg]
      exact hcur
  | cons next rest ih =>
      intro cur hcur hl g hg
      rw [mergeLoop] at hg
      split at hg
      · exact ih (mergeGap cur next) (hP _ _ hcur (hl _ (List.mem_cons_self _ _)))
          (fun x hx => hl x (List.mem_cons_of_mem _ hx)) g hg
      · rcases List.mem_cons.mp hg with rfl | hg
        · exact hcur
        · exact ih next (hl _ (List.mem_cons_self _ _))
            (fun x hx => hl x (List.mem_cons_of_mem _ hx)) g hg

theorem mergeOverlappingGaps_pres (P : TimeGap → Prop)
    (hP : ∀ a b, P a → P b → P (mergeGap a b)) (gaps : List TimeGap)
    (h : ∀ g ∈ gaps, P g) : ∀ g ∈ mergeOverlappingGaps gaps, P g := by
  unfold mergeOverlappingGaps
  have hall : ∀ x ∈ sortGapsByStart gaps, P x := by
    intro x hx
    unfold sortGapsByStart at hx
    exact h x ((List.mem_insertionSort _).mp hx)
  cases hs : sortGapsByStart gaps with
  | nil => simp
  | cons g0 rest =>
      rw [hs] at hall
      exact mergeLoop_pres P hP rest g0 (hall _ (List.mem_cons_self _ _))
        (fun x hx => hall x (List.mem_cons_of_mem _ hx))

/-- Any overlap `overlapOf` emits is non-empty and its bounds are
drawn from the bounds of the two input gaps. -/
theorem overlapOf_spec (g1 g2 g : TimeGap) (h : overlapOf g1 g2 = some g) :
    g.start < g.stop ∧ (g.start = g1.start ∨ g.start = g2.start) ∧
      (g.stop = g1.stop ∨ g.stop = g2.stop) := by
  unfold overlapOf at h
  dsimp only at h
  repeat' split at h
  all_goals try exact Option.noConfusion h
  all_goals (injection h with h; subst h; exact ⟨by assumption, by simp, by simp⟩)

theorem intersectTwoGapSets_nonempty (gaps1 gaps2 : List TimeGap) :
    ∀ g ∈ intersectTwoGapSets gaps1 gaps2, g.start < g.stop := by
  unfold intersectTwoGapSets
  apply mergeOverlappingGaps_pres
  · intro a b ha _
    unfold mergeGap
    dsimp only
    split
    · exact ha
    · exact lt_of_lt_of_le ha (by omega)
  · intro g hg
    rw [List.mem_flatMap] at hg
    obtain ⟨g1, _, hg⟩ := hg
    rw [List.mem_filterMap] at hg
    obtain ⟨g2, _, hf⟩ := hg
    exact (overlapOf_spec _ _ _ hf).1

theorem intersectTwoGapSets_aligned (gaps1 gaps2 : List TimeGap)
    (h1 : ∀ g ∈ gaps1, gridAligned g.start ∧ gridAligned g.stop)
    (h2 : ∀ g ∈ gaps2, gridAligned g.start ∧ gridAligned g.stop) :
    ∀ g ∈ intersectTwoGapSets gaps1 gaps2, gridAligned g.start ∧ gridAligned g.stop := by
  unfold intersectTwoGapSets
  apply mergeOverlappingGaps_pres
  · intro a b ha hb
    unfold mergeGap
    dsimp only
    constructor
    · exact ha.1
    · split
      · exact ha.2
      · exact hb.2
  · intro g hg
    rw [List.mem_flatMap] at hg
    obtain ⟨g1, hg1, hg⟩ := hg
    rw [List.mem_filterMap] at hg
    obtain ⟨g2, hg2, hf⟩ := hg
    obtain ⟨-, hs, he⟩ := overlapOf_spec _ _ _ hf
    constructor
    · rcases hs with hs | hs
      · rw [hs]; exact (h1 g1 hg1).1
      · rw [hs]; exact (h2 g2 hg2).1
    · rcases he with he | he
      · rw [he]; exact (h1 g1 hg1).2
      · rw [he]; exact (h2 g2 hg2).2

theorem foldl_intersect_nonempty (ls : List (List TimeGap)) (acc : List TimeGap)
    (hne : ls ≠ []) : ∀ g ∈ ls.foldl intersectTwoGapSets acc, g.start < g.stop := by
  induction ls generalizing acc with
  | nil => exact absurd rfl hne
  | cons x rest ih =>
      cases rest with
      | nil =>
          intro g hg
          rw [List.foldl_cons, List.foldl_nil] at hg
          exact intersectTwoGapSets_nonempty acc x g hg
      | cons y rest2 =>
          intro g hg
          rw [List.foldl_cons] at hg
          exact ih (intersectTwoGapSets acc x) (List.cons_ne_nil _ _) g hg

theorem foldl_intersect_aligned (ls : List (List TimeGap)) (acc : List TimeGap)
    (hacc : ∀ g ∈ acc, gridAligned g.start ∧ gridAligned g.stop)
    (hls : ∀ l ∈ ls, ∀ g ∈ l, gridAligned g.start ∧ gridAligned g.stop) :
    ∀ g ∈ ls.foldl intersectTwoGapSets acc, gridAligned g.start ∧ gridAligned g.stop := by
  induction ls generalizing acc with
  | nil => simpa using hacc
  | cons x rest ih =>
      intro g hg
      rw [List.foldl_cons] at hg
      exact ih (intersectTwoGapSets acc x)
        (intersectTwoGapSets_aligned acc x hacc (hls x (List.mem_cons_self _ _)))
        (fun l hl => hls l (List.mem_cons_of_mem _ hl)) g hg

theorem intersectGaps_spec_two (l0 l1 : List TimeGap) (rest : List (List TimeGap)) (d : Int) :
    ∀ g ∈ intersectGaps (l0 :: l1 :: rest) d, g.start < g.stop ∧ d ≤ g.durationMinutes := by
  intro g hg
  have he : intersectGaps (l0 :: l1 :: rest) d
      = ((l1 :: rest).foldl intersectTwoGapSets l0).filter
          (fun g => decide (g.durationMinutes ≥ d)) := rfl
  rw [he] at hg
  obtain ⟨hmem, hdec⟩ := List.mem_filter.mp hg
  exact ⟨foldl_intersect_nonempty _ _ (List.cons_ne_nil _ _) g hmem, by simpa using hdec⟩

theorem intersectGaps_aligned (L : List (List TimeGap)) (d : Int)
    (hL : ∀ l ∈ L, ∀ g ∈ l, gridAligned g.start ∧ gridAligned g.stop) :
    ∀ g ∈ intersectGaps L d, gridAligned g.start ∧ gridAligned g.stop := by
  rcases L with _ | ⟨l0, _ | ⟨l1, rest⟩⟩
  · intro g hg; cases hg
  · intro g hg
    exact hL l0 (List.mem_cons_self _ _) g hg
  · intro g hg
    have he : intersectGaps (l0 :: l1 :: rest) d
        = ((l1 :: rest).foldl intersectTwoGapSets l0).filter
            (fun g => decide (g.durationMinutes ≥ d)) := rfl
    rw [he] at hg
    obtain ⟨hmem, -⟩ := List.mem_filter.mp hg
    exact foldl_intersect_aligned (l1 :: rest) l0 (hL l0 (List.mem_cons_self _ _))
      (fun l hl => hL l (List.mem_cons_of_mem _ hl)) g hmem

theorem gapsForTables_length (tables : List Table) (bookings : List Booking) (date : String)
    (d : Int) (sw : Option (List ServiceWindow)) (tz : String) (L : List (List TimeGap))
    (h : gapsForTables tables bookings date d sw tz = some L) : L.length = tables.length := by
  induction tables generalizing L with
  | nil => injection h with h; subst h; rfl
  | cons t0 rest ih =>
      rw [gapsForTables] at h
      simp only [Option.bind_eq_bind, Option.bind_eq_some, Option.pure_def,
        Option.some.injEq] at h
      obtain ⟨g0, hg0, L0, hL0, hcons⟩ := h
      subst hcons
      simp [ih L0 hL0]

/-- `findComboGaps` elimination: the per-table gap lists exist, and the
result is either the short-circuit empty list or the filtered fold of
pairwise intersections. -/
theorem findComboGaps_elim (tables : List Table) (bookings : List Booking) (date : String)
    (d : Int) (sw : Option (List ServiceWindow)) (tz : String) (gaps : List TimeGap)
    (h : findComboGaps tables bookings date d sw tz = some gaps) :
    ∃ L, gapsForTables tables bookings date d sw tz = some L ∧
      (gaps = [] ∨ gaps = intersectGaps L d) := by
  unfold findComboGaps at h
  simp only [Option.bind_eq_bind, Option.bind_eq_some] at h
  obtain ⟨L, hL, hif⟩ := h
  refine ⟨L, hL, ?_⟩
  by_cases hany : L.any (·.isEmpty) = true
  · rw [if_pos hany] at hif
    injection hif with hif
    exact Or.inl hif.symm
  · rw [if_neg hany] at hif
    injection hif with hif
    exact Or.inr hif.symm

theorem findComboGaps_of_any_empty (tables : List Table) (bookings : List Booking)
    (date : String) (d : Int) (sw : Option (List ServiceWindow)) (tz : String)
    (L : List (List TimeGap)) (hL : gapsForTables tables bookings date d sw tz = some L)
    (hany : L.any (·.isEmpty) = true) : findComboGaps tables bookings date d sw tz = some [] := by
  unfold findComboGaps
  rw [hL]
  show (if L.any (·.isEmpty) = true then pure [] else pure (intersectGaps L d)) = some []
  rw [if_pos hany]
  rfl

/-! ## Coordinator structural facts -/

theorem generateLockKey_snd (restaurantId sectorId : String) (ids : List String) (s : Nat) :
    (generateLockKey restaurantId sectorId ids s).2 = sortTableIds ids := rfl

/-- The ledger read only depends on the ledger, not on the lock table. -/
@[simp]
theorem findByRestaurantAndDate_locks (w : World) (l : List String) (r d : String) :
    findByRestaurantAndDate {w with locks := l} r d = findByRestaurantAndDate w r d := rfl

/-- The constructed booking only depends on `freshId`/`now`, not on the
lock table. -/
@[simp]
theorem mkBooking_locks (w : World) (l : List String) (input : CreateBookingInput)
    (selected : Candidate) :
    mkBooking {w with locks := l} input selected = mkBooking w input selected := rfl

/-- The preparation phase performs only catalog lookups and ledger
reads. -/
theorem prepare_events (w : World) (input : CreateBookingInput) :
    ∀ e ∈ (prepare w input).2, e = Event.catalogLookup ∨ e = Event.ledgerRead := by
  intro e he
  unfold prepare at he
  repeat' split at he
  all_goals
    simp only [List.mem_cons, List.mem_singleton, List.not_mem_nil, or_false] at he
  all_goals tauto

/-- The commit phase performs only a ledger read, a ledger append and
an idempotency record. -/
theorem commitPhase_events (w : World) (input : CreateBookingInput) (selected : Candidate) :
    ∀ e ∈ (commitPhase w input selected).2.2,
      e = Event.ledgerRead ∨ e = Event.ledgerAppend
        ∨ e = Event.idemSet input.idempotencyKey := by
  intro e he
  unfold commitPhase at he
  repeat' split at he
  all_goals
    simp only [List.mem_cons, List.mem_singleton, List.not_mem_nil, or_false] at he
  all_goals tauto

/-- A successfully prepared candidate carries the tableIds list sorted
by `generateLockKey`. -/
theorem prepare_ok_tableIds (w : World) (input : CreateBookingInput) (sel : Candidate)
    (lk : String) (evs : List Event) (h : prepare w input = (.ok (sel, lk), evs)) :
    ∃ ids, sel.tableIds = sortTableIds ids := by
  unfold prepare at h
  repeat' split at h
  all_goals injection h with h1 h2
  all_goals try exact Except.noConfusion h1
  injection h1 with h1
  injection h1 with ha hb
  subst ha
  exact ⟨_, rfl⟩

theorem commitPhase_collision (w : World) (input : CreateBookingInput) (sel : Candidate)
    (hcol : checkCollision sel (findByRestaurantAndDate w input.restaurantId input.date)
      sel.tableIds = true) :
    commitPhase w input sel = (.error .conflict, w, [.ledgerRead]) := by
  unfold commitPhase
  rw [if_pos hcol]

theorem commitPhase_saveFailed (w : World) (input : CreateBookingInput) (sel : Candidate)
    (hcol : checkCollision sel (findByRestaurantAndDate w input.restaurantId input.date)
      sel.tableIds = false) (hsave : w.saveOk = false) :
    commitPhase w input sel = (.error .saveFailed, w, [.ledgerRead]) := by
  unfold commitPhase
  rw [if_neg (by simp [hcol]), if_pos (by simp [hsave])]

theorem commitPhase_success (w : World) (input : CreateBookingInput) (sel : Candidate)
    (hcol : checkCollision sel (findByRestaurantAndDate w input.restaurantId input.date)
      sel.tableIds = false) (hsave : w.saveOk = true) :
    commitPhase w input sel
      = (.ok (bookingToResponse (mkBooking w input sel)),
         {w with ledger := w.ledger ++ [mkBooking w input sel],
                 idem := (input.idempotencyKey, mkBooking w input sel) :: w.idem},
         [.ledgerRead, .ledgerAppend, .idemSet input.idempotencyKey]) := by
  unfold commitPhase
  rw [if_neg (by simp [hcol]), if_neg (by simp [hsave])]

/-- The shape of a run that passes validation, misses the idempotency
cache, prepares a candidate, and acquires the lock: the commit phase's
result, its world with the lock released, and the full trace. -/
theorem execute_eq_commit (w : World) (input : CreateBookingInput) (sel : Candidate)
    (lk : String) (evs : List Event)
    (hval : validateInputs input.partySize input.durationMinutes = true)
    (hmiss : idemLookup w input.idempotencyKey = none)
    (hprep : prepare w input = (.ok (sel, lk), evs))
    (hlock : lk ∉ w.locks) :
    execute w input
      = ((commitPhase {w with locks := lk :: w.locks} input sel).1,
         {(commitPhase {w with locks := lk :: w.locks} input sel).2.1 with
            locks := (commitPhase {w with locks := lk :: w.locks} input sel).2.1.locks.erase lk},
         .idemGet input.idempotencyKey :: (evs ++ ([.lockAcquire lk true]
           ++ ((commitPhase {w with locks := lk :: w.locks} input sel).2.2
             ++ [.lockRelease lk])))) := by
  simp [execute, hval, hmiss, hprep, hlock]

/-! ## Concrete instances used by the witnesses -/

def tableT1 : Table := ⟨"T1", "S1", "Table 1", 2, 4, "c", "u"⟩

def tableT2 : Table := ⟨"T2", "S1", "Table 2", 2, 4, "c", "u"⟩

def restaurantR1 : Restaurant :=
  ⟨"R1", "Bistro", "America/Argentina/Buenos_Aires", none, "c", "u"⟩

def sectorS1 : Sector := ⟨"S1", "R1", "Main", "c", "u"⟩

/-- A 20:00-21:30 gap. -/
def gapEvening : TimeGap := ⟨72000000, 77400000, 90⟩

def candA : Candidate := ⟨.single, ["A"], gapEvening, ⟨2, 4⟩, 1⟩

def candB : Candidate := ⟨.single, ["B"], gapEvening, ⟨2, 4⟩, 1⟩

def candC : Candidate := ⟨.single, ["C"], ⟨75600000, 81000000, 90⟩, ⟨2, 6⟩, 3⟩

/-- A candidate on table T1 over 11:00-13:00. -/
def candOverlap : Candidate := ⟨.single, ["T1"], ⟨39600000, 46800000, 120⟩, ⟨2, 4⟩, 1⟩

/-- A confirmed 10:00-12:00 booking of T1. -/
def bookingLunch : Booking :=
  ⟨"B1", "R1", "S1", ["T1"], 2, "2025-01-10", 36000000, 43200000, 120, .confirmed, "c", "u"⟩

/-- A confirmed 12:00-14:00 booking of T1, touching `bookingLunch`. -/
def bookingAfternoon : Booking :=
  ⟨"B2", "R1", "S1", ["T1"], 2, "2025-01-10", 43200000, 50400000, 120, .confirmed, "c", "u"⟩

/-- A confirmed booking occupying T2 for the whole day. -/
def bookingWholeDayT2 : Booking :=
  ⟨"B3", "R1", "S1", ["T2"], 2, "2025-01-10", 0, 86400000, 180, .confirmed, "c", "u"⟩

def inputTouching : GapDiscoveryInput :=
  ⟨tableT1, [bookingLunch, bookingAfternoon], "2025-01-10", 90, none, "tz"⟩

/-- The gap before 10:00 that `inputTouching` yields. -/
def gapMorning : TimeGap := ⟨0, 36000000, 600⟩

/-- The gap after 14:00 that `inputTouching` yields. -/
def gapLate : TimeGap := ⟨50400000, 86400000, 600⟩

/-- A booking previously stored under idempotency key "key1". -/
def bookingPrior : Booking :=
  ⟨"BK0", "R1", "S1", ["T1"], 2, "2025-01-10", 72000000, 77400000, 90, .confirmed, "t0", "t0"⟩

def worldIdem : World :=
  ⟨[restaurantR1], [sectorS1], [tableT1], [], [("key1", bookingPrior)], [], "NOW", "BK1", true⟩

def inputKey1 : CreateBookingInput := ⟨"R1", "S1", 3, 90, "2025-01-10", none, none, "key1"⟩

/-- One table, empty ledger, empty caches: a fresh day. -/
def worldFresh : World :=
  ⟨[restaurantR1], [sectorS1], [tableT1], [], [], [], "NOW", "BK1", true⟩

def inputFresh : CreateBookingInput := ⟨"R1", "S1", 3, 90, "2025-01-10", none, none, "key9"⟩

/-- The booking `execute worldFresh inputFresh` persists: it spans the
whole day although only 90 minutes were requested. -/
def bookingFull : Booking :=
  ⟨"BK1", "R1", "S1", ["T1"], 3, "2025-01-10", 0, 86400000, 90, .confirmed, "NOW", "NOW"⟩

/-! ## Claims -/

/-- Claim C1, counterexample: two valid candidates that tie on every
component of the selection key (kind, resource count, waste, gap
start) but are different Candidate values.  The stable sort keeps
ties in input order, so `selectBest` returns whichever came first:
the two permutations of the same candidate multiset produce different
chosen candidates, refuting input-order independence as stated. -/
theorem selectBest_not_permutation_invariant :
    List.Perm [candA, candB] [candB, candA] ∧
      selectBest ⟨[candA, candB], 3⟩ ≠ selectBest ⟨[candB, candA], 3⟩ := by
  constructor
  · exact List.Perm.swap candB candA []
  · decide

/-- Claim C1, amended: for every candidate list, permutation of it and
party size, `selectBest` returns the same capacity verdict and a
chosen candidate with the identical selection key (kind, resource
count, waste, gap start); and whenever no two distinct valid
candidates share the full key, the chosen candidate itself is
identical on both orders. -/
theorem selectBest_permutation_key_invariant (l1 l2 : List Candidate) (partySize : Int)
    (hperm : List.Perm l1 l2) :
    (selectBest ⟨l1, partySize⟩).hasCapacity = (selectBest ⟨l2, partySize⟩).hasCapacity ∧
    Option.map selKey (selectBest ⟨l1, partySize⟩).candidate
      = Option.map selKey (selectBest ⟨l2, partySize⟩).candidate ∧
    ((∀ a ∈ filterValidCandidates l1 partySize, ∀ b ∈ filterValidCandidates l1 partySize,
        selKey a = selKey b → a = b) →
      selectBest ⟨l1, partySize⟩ = selectBest ⟨l2, partySize⟩) := by
  have hF : List.Perm (filterValidCandidates l1 partySize)
      (filterValidCandidates l2 partySize) := hperm.filter _
  by_cases hE : filterValidCandidates l1 partySize = []
  · have hE2 : filterValidCandidates l2 partySize = [] := by
      rw [hE] at hF
      exact hF.symm.eq_nil
    simp [selectBest, hE, hE2]
  · have hE2 : filterValidCandidates l2 partySize ≠ [] := by
      intro hnil
      rw [hnil] at hF
      exact hE hF.eq_nil
    obtain ⟨c1, hc1eq, hc1mem, hc1min⟩ := selectBestCandidate_spec _ hE
    obtain ⟨c2, hc2eq, hc2mem, hc2min⟩ := selectBestCandidate_spec _ hE2
    have hsel1 : selectBest ⟨l1, partySize⟩ = ⟨some c1, true⟩ := by
      simp only [selectBest]
      rw [if_neg (by simpa using hE), hc1eq]
    have hsel2 : selectBest ⟨l2, partySize⟩ = ⟨some c2, true⟩ := by
      simp only [selectBest]
      rw [if_neg (by simpa using hE2), hc2eq]
    have hkeyeq : selKey c1 = selKey c2 :=
      keyLE_antisymm _ _
        ((candLE_iff_keyLE _ _).mp (hc1min c2 (hF.mem_iff.mpr hc2mem)))
        ((candLE_iff_keyLE _ _).mp (hc2min c1 (hF.mem_iff.mp hc1mem)))
    rw [hsel1, hsel2]
    refine ⟨rfl, by simpa using hkeyeq, fun hinj => ?_⟩
    rw [hinj c1 hc1mem c2 (hF.mem_iff.mpr hc2mem) hkeyeq]

/-- Witness for the amended C1 at two key-distinct candidates and a
transposition. -/
theorem selectBest_permutation_key_invariant_witness :
    selectBest ⟨[candA, candC], 3⟩ = selectBest ⟨[candC, candA], 3⟩ :=
  (selectBest_permutation_key_invariant [candA, candC] [candC, candA] 3
    (List.Perm.swap candC candA [])).2.2 (by decide)

/-- Claim C2: `selectBest` filters to candidates whose capacity range
contains the party size; if the filtered set is empty it returns
`{candidate := none, hasCapacity := false}`; otherwise it returns a
filtered candidate minimal under the lexicographic key (kind: single
before combo; then fewer resource ids; then lower waste; then earlier
gap start instant). -/
theorem selectBest_contract (candidates : List Candidate) (partySize : Int) :
    (∀ x, x ∈ filterValidCandidates candidates partySize ↔
        x ∈ candidates ∧ x.capacity.minSize ≤ partySize ∧ partySize ≤ x.capacity.maxSize) ∧
    (filterValidCandidates candidates partySize = [] →
      selectBest ⟨candidates, partySize⟩ = ⟨none, false⟩) ∧
    (filterValidCandidates candidates partySize ≠ [] →
      ∃ c, selectBest ⟨candidates, partySize⟩ = ⟨some c, true⟩ ∧
        c ∈ filterValidCandidates candidates partySize ∧
        ∀ d ∈ filterValidCandidates candidates partySize, keyLE (selKey c) (selKey d)) := by
  refine ⟨?_, ?_, ?_⟩
  · intro x
    simp [filterValidCandidates, List.mem_filter, ge_iff_le, and_assoc]
  · intro hE
    simp [selectBest, hE]
  · intro hNE
    obtain ⟨c, hceq, hcmem, hcmin⟩ := selectBestCandidate_spec _ hNE
    refine ⟨c, ?_, hcmem, fun d hd => (candLE_iff_keyLE _ _).mp (hcmin d hd)⟩
    simp only [selectBest]
    rw [if_neg (by simpa using hNE), hceq]

/-- Witness for C2 at a non-empty filtered set. -/
theorem selectBest_contract_witness :
    ∃ c, selectBest ⟨[candA], 3⟩ = ⟨some c, true⟩ ∧
      c ∈ filterValidCandidates [candA] 3 ∧
      ∀ d ∈ filterValidCandidates [candA] 3, keyLE (selKey c) (selKey d) :=
  (selectBest_contract [candA] 3).2.2 (by decide)

/-- Claim C3: for a request passing step-1 validation whose
idempotency key is already stored, `execute` returns the stored
booking's response verbatim, leaves the world (in particular the
ledger) unchanged, and performs no catalog lookup, no lock
acquisition, no ledger read and no ledger append. -/
theorem execute_idempotent_short_circuit (w : World) (input : CreateBookingInput) (b : Booking)
    (hval : validateInputs input.partySize input.durationMinutes = true)
    (hidem : idemLookup w input.idempotencyKey = some b) :
    execute w input = (.ok (bookingToResponse b), w, [.idemGet input.idempotencyKey]) ∧
    (execute w input).2.1.ledger = w.ledger ∧
    Event.catalogLookup ∉ (execute w input).2.2 ∧
    (∀ k ok, Event.lockAcquire k ok ∉ (execute w input).2.2) ∧
    Event.ledgerRead ∉ (execute w input).2.2 ∧
    Event.ledgerAppend ∉ (execute w input).2.2 := by
  have hex : execute w input
      = (.ok (bookingToResponse b), w, [.idemGet input.idempotencyKey]) := by
    unfold execute
    rw [if_neg (by simp [hval]), hidem]
  rw [hex]
  exact ⟨rfl, rfl, by simp, by simp, by simp, by simp⟩

/-- Witness for C3 at a world whose idempotency cache holds "key1". -/
theorem execute_idempotent_short_circuit_witness :
    execute worldIdem inputKey1
      = (.ok (bookingToResponse bookingPrior), worldIdem,
         [.idemGet inputKey1.idempotencyKey]) :=
  (execute_idempotent_short_circuit worldIdem inputKey1 bookingPrior (by decide) (by decide)).1

/-- Claim C4: whenever a run of `execute` acquires the lock (the
acquire event with result true is in its trace), that same run also
releases the same lock key, on the successful commit, the collision
conflict, and the unexpected save failure paths alike. -/
theorem execute_releases_acquired_lock (w : World) (input : CreateBookingInput) (k : String)
    (h : Event.lockAcquire k true ∈ (execute w input).2.2) :
    Event.lockRelease k ∈ (execute w input).2.2 := by
  by_cases hval : validateInputs input.partySize input.durationMinutes = true
  case neg =>
    simp [execute, hval] at h
  case pos =>
  cases hidem : idemLookup w input.idempotencyKey with
  | some b =>
      simp [execute, hval, hidem] at h
  | none =>
      rcases hprep : prepare w input with ⟨res, evs⟩
      have hpe : ∀ e ∈ evs, e = Event.catalogLookup ∨ e = Event.ledgerRead := by
        have hh := prepare_events w input
        rw [hprep] at hh
        exact hh
      rcases res with e | ⟨sel, lk⟩
      · have htr : (execute w input).2.2 = .idemGet input.idempotencyKey :: evs := by
          simp [execute, hval, hidem, hprep]
        rw [htr] at h
        rcases List.mem_cons.mp h with h | h
        · simp at h
        · rcases hpe _ h with h2 | h2 <;> simp at h2
      · by_cases hlock : lk ∈ w.locks
        · have htr : (execute w input).2.2
              = .idemGet input.idempotencyKey :: (evs ++ [.lockAcquire lk false]) := by
            simp [execute, hval, hidem, hprep, hlock]
          rw [htr] at h
          rcases List.mem_cons.mp h with h | h
          · simp at h
          · rcases List.mem_append.mp h with h | h
            · rcases hpe _ h with h2 | h2 <;> simp at h2
            · have h3 := List.mem_singleton.mp h
              simp at h3
        · have hce := commitPhase_events {w with locks := lk :: w.locks} input sel
          have htr : (execute w input).2.2
              = .idemGet input.idempotencyKey :: (evs ++ ([.lockAcquire lk true]
                ++ ((commitPhase {w with locks := lk :: w.locks} input sel).2.2
                  ++ [.lockRelease lk]))) := by
            simp [execute, hval, hidem, hprep, hlock]
          rw [htr] at h ⊢
          have hk : k = lk := by
            rcases List.mem_cons.mp h with h | h
            · simp at h
            rcases List.mem_append.mp h with h | h
            · rcases hpe _ h with h2 | h2 <;> simp at h2
            rcases List.mem_append.mp h with h | h
            · have h3 := List.mem_singleton.mp h
              simp only [Event.lockAcquire.injEq] at h3
              exact h3.1
            rcases List.mem_append.mp h with h | h
            · rcases hce _ h with h2 | h2 | h2 <;> simp at h2
            · have h3 := List.mem_singleton.mp h
              simp at h3
          subst hk
          exact List.mem_cons_of_mem _ (List.mem_append.mpr (Or.inr
            (List.mem_append.mpr (Or.inr (List.mem_append.mpr
              (Or.inr (List.mem_singleton.mpr rfl)))))))

/-- Witness for C4 at a fresh world where the lock is acquired and the
commit succeeds. -/
theorem execute_releases_acquired_lock_witness :
    Event.lockRelease "R1|S1|T1|0" ∈ (execute worldFresh inputFresh).2.2 :=
  execute_releases_acquired_lock worldFresh inputFresh "R1|S1|T1|0" (by decide)

/-- Claim C5: (a) two confirmed bookings of the input's table on the
requested date whose aligned end and aligned start touch at T leave no
gap between them in the returned list; (b) the coordinator's collision
check reports a collision exactly when some CONFIRMED booking sharing
a table satisfies `candidateStart < bookingEnd ∧ candidateEnd >
bookingStart`, so touching at an endpoint is not a collision. -/
theorem half_open_boundary :
    (∀ (input : GapDiscoveryInput) (b1 b2 : Booking) (gaps : List TimeGap) (T : Nat),
        b1 ∈ input.bookings → b2 ∈ input.bookings →
        b1.status = .confirmed → b2.status = .confirmed →
        input.table.id ∈ b1.tableIds → input.table.id ∈ b2.tableIds →
        b1.startDate = input.date → b2.startDate = input.date →
        alignToGrid b1.stop = T → alignToGrid b2.start = T →
        findGapsForTable input = some gaps →
        ∀ g ∈ gaps, ¬ (T ≤ g.start ∧ g.stop ≤ T)) ∧
    (∀ (candidate : Candidate) (bookings : List Booking) (tableIds : List String),
        checkCollision candidate bookings tableIds = true ↔
          ∃ b ∈ bookings, b.status = .confirmed ∧ (∃ id ∈ b.tableIds, id ∈ tableIds) ∧
            candidate.gap.start < b.stop ∧ candidate.gap.stop > b.start) := by
  constructor
  · intro input b1 b2 gaps T _ _ _ _ _ _ _ _ _ _ hfind g hg
    rintro ⟨hTs, hsT⟩
    obtain ⟨h30, hall⟩ := findGapsForTable_mem input gaps hfind
    obtain ⟨⟨hdur, -, -⟩, hge⟩ := hall g hg
    have h30g : 30 ≤ durFloor g.start g.stop := by rw [← hdur]; omega
    have := lt_of_durFloor_ge_30 _ _ h30g
    omega
  · intro candidate bookings tableIds
    unfold checkCollision
    simp [List.any_eq_true, and_assoc]

/-- Witness for C5: the touching 10:00-12:00 and 12:00-14:00 bookings
produce no gap between them (checked on the first returned gap), and
the collision characterization instantiated at an overlapping
candidate. -/
theorem half_open_boundary_witness :
    (¬ ((43200000 : Nat) ≤ gapMorning.start ∧ gapMorning.stop ≤ 43200000)) ∧
    (checkCollision candOverlap [bookingLunch] ["T1"] = true ↔
      ∃ b ∈ [bookingLunch], b.status = .confirmed ∧ (∃ id ∈ b.tableIds, id ∈ ["T1"]) ∧
        candOverlap.gap.start < b.stop ∧ candOverlap.gap.stop > b.start) :=
  ⟨half_open_boundary.1 inputTouching bookingLunch bookingAfternoon [gapMorning, gapLate]
      43200000 (by decide) (by decide) (by decide) (by decide) (by decide) (by decide)
      (by decide) (by decide) (by decide) (by decide) (by decide) gapMorning (by decide),
   half_open_boundary.2 candOverlap [bookingLunch] ["T1"]⟩

/-- Claim C6: for a resource set of size ≥ 2, (a) if some member table
individually yields zero gaps for the full required duration then
`findComboGaps` returns the empty list; (b) every interval
`findComboGaps` returns is non-empty and at least the required
duration long. -/
theorem intersector_sound :
    (∀ (tables : List Table) (bookings : List Booking) (date : String) (d : Int)
        (sw : Option (List ServiceWindow)) (tz : String) (t : Table),
        2 ≤ tables.length → t ∈ tables →
        findGapsForTable ⟨t, bookings, date, d, sw, tz⟩ = some [] →
        findComboGaps tables bookings date d sw tz = some []) ∧
    (∀ (tables : List Table) (bookings : List Booking) (date : String) (d : Int)
        (sw : Option (List ServiceWindow)) (tz : String) (gaps : List TimeGap),
        2 ≤ tables.length →
        findComboGaps tables bookings date d sw tz = some gaps →
        ∀ g ∈ gaps, g.start < g.stop ∧ d ≤ g.durationMinutes) := by
  constructor
  · intro tables bookings date d sw tz t _ ht hft
    have hv : isValidDuration d = true := findGapsForTable_isValid _ _ hft
    obtain ⟨L, hL⟩ := gapsForTables_total tables bookings date d sw tz hv
    obtain ⟨mem1, -⟩ := gapsForTables_elim tables bookings date d sw tz L hL
    obtain ⟨gs, hgsL, hf⟩ := mem1 t ht
    rw [hft] at hf
    injection hf with hf
    rw [← hf] at hgsL
    exact findComboGaps_of_any_empty tables bookings date d sw tz L hL
      (List.any_eq_true.mpr ⟨[], hgsL, rfl⟩)
  · intro tables bookings date d sw tz gaps hlen h
    obtain ⟨L, hL, hcase⟩ := findComboGaps_elim tables bookings date d sw tz gaps h
    rcases hcase with rfl | rfl
    · intro g hg
      cases hg
    · have hlenL : L.length = tables.length :=
        gapsForTables_length tables bookings date d sw tz L hL
      rcases L with _ | ⟨l0, _ | ⟨l1, rest⟩⟩
      · exfalso
        simp at hlenL
        omega
      · exfalso
        simp at hlenL
        omega
      · exact intersectGaps_spec_two l0 l1 rest d

/-- Witness for C6: a pair of tables where T2 is fully booked yields
the empty combo list; the same pair on an empty ledger yields the
full-day interval, non-empty and 1440 ≥ 90 minutes long. -/
theorem intersector_sound_witness :
    findComboGaps [tableT1, tableT2] [bookingWholeDayT2] "2025-01-10" 90 none "tz" = some [] ∧
    (TimeGap.mk 0 86400000 1440).start < (TimeGap.mk 0 86400000 1440).stop ∧
      (90 : Int) ≤ (TimeGap.mk 0 86400000 1440).durationMinutes :=
  ⟨intersector_sound.1 [tableT1, tableT2] [bookingWholeDayT2] "2025-01-10" 90 none "tz"
      tableT2 (by decide) (by decide) (by decide),
   intersector_sound.2 [tableT1, tableT2] [] "2025-01-10" 90 none "tz"
      [⟨0, 86400000, 1440⟩] (by decide) (by decide) ⟨0, 86400000, 1440⟩ (by decide)⟩

/-- Claim C7: every gap returned by single-resource discovery and by
combo discovery has grid-aligned bounds: minute component in
{0, 15, 30, 45} and zero seconds and sub-second components. -/
theorem discovery_grid_alignment :
    (∀ (input : GapDiscoveryInput) (gaps : List TimeGap),
        findGapsForTable input = some gaps →
        ∀ g ∈ gaps, gridAligned g.start ∧ gridAligned g.stop) ∧
    (∀ (tables : List Table) (bookings : List Booking) (date : String) (d : Int)
        (sw : Option (List ServiceWindow)) (tz : String) (gaps : List TimeGap),
        findComboGaps tables bookings date d sw tz = some gaps →
        ∀ g ∈ gaps, gridAligned g.start ∧ gridAligned g.stop) := by
  constructor
  · intro input gaps h g hg
    obtain ⟨-, hall⟩ := findGapsForTable_mem input gaps h
    obtain ⟨⟨-, ha, hb⟩, -⟩ := hall g hg
    exact ⟨ha, hb⟩
  · intro tables bookings date d sw tz gaps h g hg
    obtain ⟨L, hL, hcase⟩ := findComboGaps_elim tables bookings date d sw tz gaps h
    rcases hcase with rfl | rfl
    · cases hg
    · have hLa : ∀ l ∈ L, ∀ g ∈ l, gridAligned g.start ∧ gridAligned g.stop := by
        intro l hl g2 hg2
        obtain ⟨-, mem2⟩ := gapsForTables_elim tables bookings date d sw tz L hL
        obtain ⟨t, -, hf⟩ := mem2 l hl
        obtain ⟨-, hall⟩ := findGapsForTable_mem _ _ hf
        obtain ⟨⟨-, ha, hb⟩, -⟩ := hall g2 hg2
        exact ⟨ha, hb⟩
      exact intersectGaps_aligned L d hLa g hg

/-- Witness for C7 on a concretely computed gap list. -/
theorem discovery_grid_alignment_witness :
    gridAligned gapMorning.start ∧ gridAligned gapMorning.stop :=
  discovery_grid_alignment.1 inputTouching [gapMorning, gapLate] (by decide)
    gapMorning (by decide)

/-- Claim C8, counterexample: at 00:00:30 (30000 ms) the function
returns 00:00:00, an instant strictly BEFORE its argument, so it is
not the least grid-aligned instant greater than or equal to t. -/
theorem alignToNextGrid_rounds_down_counterexample :
    alignToNextGrid 30000 = 0 ∧ ¬ (30000 ≤ alignToNextGrid 30000) := by
  decide

/-- Claim C8, amended: `alignToNextGrid` ceils only the minute-of-hour
component and zeroes the seconds and sub-second components; restricted
to instants whose seconds and sub-second components are zero it is
exactly the least grid-aligned instant greater than or equal to t, a
no-op on aligned instants. -/
theorem alignToNextGrid_least_aligned (t : Nat) (h : t % 60000 = 0) :
    gridAligned (alignToNextGrid t) ∧ t ≤ alignToNextGrid t ∧
      (gridAligned t → alignToNextGrid t = t) ∧
      ∀ u, gridAligned u → t ≤ u → alignToNextGrid t ≤ u := by
  refine ⟨gridAligned_alignToNextGrid t, ?_, ?_, ?_⟩
  · unfold alignToNextGrid
    omega
  · rw [gridAligned_iff]
    unfold alignToNextGrid
    omega
  · intro u hu htu
    rw [gridAligned_iff] at hu
    unfold alignToNextGrid
    omega

/-- Witness for the amended C8 at 20:07 (72420000 ms): the result lies
between the argument and the next grid instant 20:15. -/
theorem alignToNextGrid_least_aligned_witness :
    (72420000 : Nat) ≤ alignToNextGrid 72420000 ∧ alignToNextGrid 72420000 ≤ 72900000 :=
  ⟨(alignToNextGrid_least_aligned 72420000 (by decide)).2.1,
   (alignToNextGrid_least_aligned 72420000 (by decide)).2.2.2 72900000 (by decide) (by decide)⟩

/-- Claim C9: on the non-idempotent successful path, the persisted
booking spans the selected candidate's whole gap (start and end equal
the gap bounds) while its stored durationMinutes is the requested
duration, so end − start can strictly exceed the requested duration. -/
theorem execute_commits_whole_gap (w : World) (input : CreateBookingInput)
    (r : CreateBookingResponse)
    (hmiss : idemLookup w input.idempotencyKey = none)
    (hok : (execute w input).1 = .ok r) :
    ∃ c b, selectedCandidateOf w input = some c ∧
      (execute w input).2.1.ledger = w.ledger ++ [b] ∧
      b.start = c.gap.start ∧ b.stop = c.gap.stop ∧
      b.durationMinutes = input.durationMinutes ∧
      r = bookingToResponse b := by
  by_cases hval : validateInputs input.partySize input.durationMinutes = true
  case neg =>
    simp [execute, hval] at hok
  case pos =>
  rcases hprep : prepare w input with ⟨res, evs⟩
  rcases res with e | ⟨sel, lk⟩
  · simp [execute, hval, hmiss, hprep] at hok
  · by_cases hlock : lk ∈ w.locks
    · simp [execute, hval, hmiss, hprep, hlock] at hok
    · have hsel : selectedCandidateOf w input = some sel := by
        simp [selectedCandidateOf, hprep]
      have hex := execute_eq_commit w input sel lk evs hval hmiss hprep hlock
      by_cases hcol : checkCollision sel
          (findByRestaurantAndDate w input.restaurantId input.date) sel.tableIds = true
      · have hc := commitPhase_collision {w with locks := lk :: w.locks} input sel hcol
        rw [hex, hc] at hok
        simp at hok
      · have hcolF : checkCollision sel
            (findByRestaurantAndDate w input.restaurantId input.date) sel.tableIds = false := by
          simpa using hcol
        cases hsave : w.saveOk with
        | false =>
            have hc := commitPhase_saveFailed {w with locks := lk :: w.locks} input sel hcolF hsave
            rw [hex, hc] at hok
            simp at hok
        | true =>
            have hc := commitPhase_success {w with locks := lk :: w.locks} input sel hcolF hsave
            rw [hex, hc] at hok
            simp only [Except.ok.injEq, mkBooking_locks] at hok
            refine ⟨sel, mkBooking w input sel, hsel, ?_, rfl, rfl, rfl, hok.symm⟩
            rw [hex, hc]
            rfl

/-- Witness for C9: a 90-minute request on an empty day commits the
whole-day booking; its span is 1440 minutes, strictly more than the
stored 90. -/
theorem execute_commits_whole_gap_witness :
    (∃ c b, selectedCandidateOf worldFresh inputFresh = some c ∧
      (execute worldFresh inputFresh).2.1.ledger = worldFresh.ledger ++ [b] ∧
      b.start = c.gap.start ∧ b.stop = c.gap.stop ∧
      b.durationMinutes = inputFresh.durationMinutes ∧
      bookingToResponse bookingFull = bookingToResponse b) ∧
    (bookingFull.stop - bookingFull.start) / 60000 = 1440 ∧
      bookingFull.durationMinutes = 90 ∧ (90 : Int) < 1440 :=
  ⟨execute_commits_whole_gap worldFresh inputFresh (bookingToResponse bookingFull)
      (by decide) (by rfl), by decide⟩

/-- Claim C10: every booking `execute` adds to the ledger has its
tableIds in ascending sorted order: `generateLockKey` sorts the
selected candidate's tableIds array in place and the booking is
constructed from that same array. -/
theorem execute_persists_sorted_tableIds (w : World) (input : CreateBookingInput) (b : Booking)
    (hb : b ∈ (execute w input).2.1.ledger) :
    b ∈ w.ledger ∨ List.Sorted (fun x y => x ≤ y) b.tableIds := by
  by_cases hval : validateInputs input.partySize input.durationMinutes = true
  case neg =>
    simp [execute, hval] at hb
    exact Or.inl hb
  case pos =>
  cases hidem : idemLookup w input.idempotencyKey with
  | some ex =>
      simp [execute, hval, hidem] at hb
      exact Or.inl hb
  | none =>
      rcases hprep : prepare w input with ⟨res, evs⟩
      rcases res with e | ⟨sel, lk⟩
      · simp [execute, hval, hidem, hprep] at hb
        exact Or.inl hb
      · by_cases hlock : lk ∈ w.locks
        · simp [execute, hval, hidem, hprep, hlock] at hb
          exact Or.inl hb
        · have hex := execute_eq_commit w input sel lk evs hval hidem hprep hlock
          by_cases hcol : checkCollision sel
              (findByRestaurantAndDate w input.restaurantId input.date) sel.tableIds = true
          · have hc := commitPhase_collision {w with locks := lk :: w.locks} input sel hcol
            rw [hex, hc] at hb
            exact Or.inl hb
          · have hcolF : checkCollision sel
                (findByRestaurantAndDate w input.restaurantId input.date)
                sel.tableIds = false := by
              simpa using hcol
            cases hsave : w.saveOk with
            | false =>
                have hc := commitPhase_saveFailed {w with locks := lk :: w.locks} input sel
                  hcolF hsave
                rw [hex, hc] at hb
                exact Or.inl hb
            | true =>
                have hc := commitPhase_success {w with locks := lk :: w.locks} input sel
                  hcolF hsave
                rw [hex, hc] at hb
                simp only [mkBooking_locks] at hb
                rcases List.mem_append.mp hb with hb | hb
                · exact Or.inl hb
                · right
                  obtain ⟨ids, hids⟩ := prepare_ok_tableIds w input sel lk evs hprep
                  rw [List.mem_singleton.mp hb]
                  show List.Sorted _ sel.tableIds
                  rw [hids]
                  exact List.sorted_insertionSort _ _

/-- Witness for C10 on the concrete committed booking. -/
theorem execute_persists_sorted_tableIds_witness :
    bookingFull ∈ worldFresh.ledger ∨
      List.Sorted (fun x y => x ≤ y) bookingFull.tableIds :=
  execute_persists_sorted_tableIds worldFresh inputFresh bookingFull (by decide)

end WokiBrain
